import Mathlib

/-!
# Verification of the `spacymoji` pipeline component

A shallow embedding of `spacymoji/__init__.py` (the `Emoji` spaCy pipeline
component) together with proofs of the specified properties.

Modelling choices:
* Python strings are `List Char` (`PyStr`).
* Python dicts are association lists with unique keys; lookups find the first
  matching key, and the dict comprehension building `EMOJI` is modelled by
  left-to-right insertion where a duplicate key overwrites the stored value in
  place (Python dict semantics).
* A spaCy `Doc` is a token list plus an object identity tag `docId`; a matcher
  span is a half-open token-index interval `[start, stop)`.
* The host framework (tokenizer, `PhraseMatcher`, `filter_spans`, the
  extension registry) is external spaCy code, not part of this repository; the
  tokenizer and the matcher are abstract parameters, and `filter_spans` and
  the `set_extension` validation are modelled from the specification.
-/

namespace Spacymoji

/-- Python strings, modelled as character lists. -/
abbrev PyStr := List Char

/-- Fuel-indexed scan for `pyReplace`. Each step consumes at least one
character of `s`, so fuel `s.length` always suffices. -/
def pyReplaceAux : Nat → PyStr → PyStr → PyStr → PyStr
  | 0, s, _, _ => s
  | fuel + 1, s, old, new =>
    match s with
    | [] => []
    | c :: rest =>
      if old ≠ [] ∧ old.isPrefixOf (c :: rest) then
        new ++ pyReplaceAux fuel ((c :: rest).drop old.length) old new
      else
        c :: pyReplaceAux fuel rest old new

/-- Python `s.replace(old, new)`: replace non-overlapping occurrences of
`old` in `s` from the left by `new` (for the nonempty `old` patterns this
repository uses). -/
def pyReplace (s old new : PyStr) : PyStr :=
  pyReplaceAux s.length s old new

/-- Python `key in d` for a dict modelled as an association list. -/
def dictContains (d : List (PyStr × PyStr)) (k : PyStr) : Bool :=
  d.any (fun p => p.1 = k)

/-- Python `d[key]` (as an `Option`): the value stored under the first
occurrence of the key. -/
def dictFind (d : List (PyStr × PyStr)) (k : PyStr) : Option PyStr :=
  (d.find? (fun p => p.1 = k)).map Prod.snd

/-- Python dict insertion: a duplicate key overwrites the stored value in
place, a fresh key is appended (insertion order is preserved). -/
def dictInsert (d : List (PyStr × PyStr)) (k v : PyStr) : List (PyStr × PyStr) :=
  if dictContains d k then
    d.map (fun p => if p.1 = k then (k, v) else p)
  else
    d ++ [(k, v)]

/-- The table `EMOJI = {e.replace(" ", ""): t for e, t in UNICODE_EMOJI.items()}`:
the third-party emoji-name table with all space characters removed from each
key. `unicodeEmoji` is the abstract `emoji.UNICODE_EMOJI` data table. -/
def EMOJI (unicodeEmoji : List (PyStr × PyStr)) : List (PyStr × PyStr) :=
  unicodeEmoji.foldl (fun d p => dictInsert d (pyReplace p.1 [' '] []) p.2) []

/-- A spaCy `Token`: its text and the `is_emoji` underscore extension
(default `false`). -/
structure Token where
  text : PyStr
  isEmojiFlag : Bool
deriving Repr, DecidableEq

/-- A matcher span: the half-open token-index interval `[start, stop)`. -/
structure SpanIdx where
  start : Nat
  stop : Nat
deriving Repr, DecidableEq

/-- A spaCy `Doc`: an object identity tag and the token sequence.
In-place mutation is modelled as updating `tokens` while keeping `docId`. -/
structure Doc where
  docId : Nat
  tokens : List Token
deriving Repr, DecidableEq

/-- A token with its `is_emoji` flag set. -/
def setTrue (t : Token) : Token :=
  { t with isEmojiFlag := true }

/-- One `token._.set(self._is_emoji, True)` write at position `i` of the token list. -/
def setFlagAt : List Token → Nat → List Token
  | [], _ => []
  | t :: ts, 0 => { t with isEmojiFlag := true } :: ts
  | t :: ts, n + 1 => t :: setFlagAt ts n

/-- The loop `for token in span: token._.set(self._is_emoji, True)`:
set the flag at every position in `[sp.start, sp.stop)`. -/
def setSpanFlags (ts : List Token) (sp : SpanIdx) : List Token :=
  (List.range' sp.start (sp.stop - sp.start)).foldl setFlagAt ts

/-- The flag-setting loop of `Emoji.__call__`: set the `is_emoji` flag on
every token of every matched span. -/
def setFlags (ts : List Token) (spans : List SpanIdx) : List Token :=
  spans.foldl setSpanFlags ts

/-- Modelled from the spec: the kept-span scan of `spacy.util.filter_spans`
(external host code, not in this repository) — "skip a candidate span if it
starts before the end of the last merged span"; `lastEnd` is the end of the
last kept span. -/
def filterSpansFrom (lastEnd : Nat) : List SpanIdx → List SpanIdx
  | [] => []
  | sp :: rest =>
    if sp.start < lastEnd then filterSpansFrom lastEnd rest
    else sp :: filterSpansFrom sp.stop rest

/-- Modelled from the spec: `spacy.util.filter_spans` (external host code,
not in this repository), the overlap-skipping rule applied to the candidate
spans. -/
def filter_spans (spans : List SpanIdx) : List SpanIdx :=
  filterSpansFrom 0 spans

/-- The spans actually passed to `retokenizer.merge`: the kept spans of more
than one token (`if len(span) > 1`). -/
def spansToMerge (spans : List SpanIdx) : List SpanIdx :=
  (filter_spans spans).filter (fun sp => 1 < sp.stop - sp.start)

/-- One `retokenizer.merge(span)`: the span's tokens collapse into a single
token whose text is the concatenation of their texts. Underscore extension
data is keyed by character offset, so the merged token inherits the flag of
the span's first token. -/
def mergeOne (ts : List Token) (sp : SpanIdx) : List Token :=
  ts.take sp.start ++
    ⟨((ts.drop sp.start).take (sp.stop - sp.start)).foldr (fun t acc => t.text ++ acc) [],
     (match ts.drop sp.start with | [] => false | t :: _ => t.isEmojiFlag)⟩ ::
    ts.drop sp.stop

/-- The retokenizer context exit: apply the requested merges. The requested
spans are disjoint and in ascending order, so applying them right-to-left
keeps every span's original token indices valid. -/
def retokenize (ts : List Token) (spans : List SpanIdx) : List Token :=
  spans.foldr (fun sp acc => mergeOne acc sp) ts

/-- The `Emoji` component state: the four attribute names, the `merge_spans`
switch and the custom-description lookup table, all set by `__init__`. -/
structure EmojiComponent where
  hasEmojiAttr : PyStr
  isEmojiAttr : PyStr
  emojiDescAttr : PyStr
  emojiAttr : PyStr
  merge_spans : Bool
  lookup : List (PyStr × PyStr)
  matcherKeys : List PyStr
  matcherPatterns : List (List (List PyStr))
deriving Repr, DecidableEq

/-- Method `Emoji.__call__(doc)`: run the matcher, set the per-token flags, and if
`merge_spans` is enabled filter the spans and merge the multi-token ones.
`matcher` abstracts `self.matcher(doc, as_spans=True)`. -/
def Emoji.call (e : EmojiComponent) (matcher : Doc → List SpanIdx) (doc : Doc) : Doc :=
  let spans := matcher doc
  let doc1 : Doc := { doc with tokens := setFlags doc.tokens spans }
  if e.merge_spans then
    { doc1 with tokens := retokenize doc1.tokens (spansToMerge spans) }
  else
    doc1

/-- Getter `Emoji.has_emoji(tokens)`: whether any token's flag is set. -/
def Emoji.has_emoji (ts : List Token) : Bool :=
  ts.any (fun t => t.isEmojiFlag)

/-- Getter `Emoji.get_emoji_desc(token)`: the custom lookup entry if present,
otherwise the `EMOJI` table value with `"_" -> " "` then `":" -> ""`
applied, otherwise `None`. `tbl` is the `EMOJI` table in scope. -/
def Emoji.get_emoji_desc (lookup tbl : List (PyStr × PyStr)) (t : Token) : Option PyStr :=
  match dictFind lookup t.text with
  | some v => some v
  | none =>
    match dictFind tbl t.text with
    | some desc => some (pyReplace (pyReplace desc ['_'] [' ']) [':'] [])
    | none => none

/-- Getter `Emoji.iter_emoji(tokens)`: the `(text, index, description)` triples of
the flagged tokens, indices from `enumerate` over the container. -/
def Emoji.iter_emoji (lookup tbl : List (PyStr × PyStr)) (ts : List Token) :
    List (PyStr × Nat × Option PyStr) :=
  (ts.enum.filter (fun p => p.2.isEmojiFlag)).map
    (fun p => (p.2.text, p.1, Emoji.get_emoji_desc lookup tbl p.2))

/-- The token list a `Span` object `doc[a:b]` iterates over. -/
def spanTokens (ts : List Token) (a b : Nat) : List Token :=
  (ts.drop a).take (b - a)

/-- The host framework's underscore-extension registries for the three
object types. -/
structure HostRegistry where
  docExts : List PyStr
  spanExts : List PyStr
  tokenExts : List PyStr
deriving Repr, DecidableEq

/-- Modelled from the spec: the host framework's `set_extension` validation
(external spaCy code, not in this repository) — registering a duplicate
attribute name fails unless `force` is set ("whether to overwrite
pre-existing same-named attributes"; "duplicate attribute names ... surfaced
directly by the host framework's own validation"). -/
def setExtension (registered : List PyStr) (name : PyStr) (force : Bool) :
    Except PyStr (List PyStr) :=
  if name ∈ registered then
    if force then Except.ok registered else Except.error name
  else
    Except.ok (registered ++ [name])

/-- Constructor `Emoji.__init__`: unpack the four attribute names, store the
configuration, build one matcher pattern per `EMOJI` key on a fresh
`PhraseMatcher` under the single `pattern_id`, and register the six
underscore extensions (`Doc`: has/list, `Span`: has/list, `Token`:
flag/description). `tok` abstracts `nlp.tokenizer`. The only failure sites
are the host's `set_extension` validations. -/
def Emoji.init (tok : PyStr → List PyStr) (unicodeEmoji : List (PyStr × PyStr))
    (host : HostRegistry) (merge_spans : Bool)
    (lookup : Option (List (PyStr × PyStr))) (pattern_id : PyStr)
    (attrs : PyStr × PyStr × PyStr × PyStr) (force_extension : Bool) :
    Except PyStr (EmojiComponent × HostRegistry) := do
  let (a1, a2, a3, a4) := attrs
  let emoji_patterns := (EMOJI unicodeEmoji).map (fun p => tok p.1)
  let d1 ← setExtension host.docExts a1 force_extension
  let d2 ← setExtension d1 a4 force_extension
  let s1 ← setExtension host.spanExts a1 force_extension
  let s2 ← setExtension s1 a4 force_extension
  let t1 ← setExtension host.tokenExts a2 force_extension
  let t2 ← setExtension t1 a3 force_extension
  Except.ok
    ({ hasEmojiAttr := a1, isEmojiAttr := a2, emojiDescAttr := a3, emojiAttr := a4,
       merge_spans := merge_spans, lookup := lookup.getD [],
       matcherKeys := [pattern_id], matcherPatterns := [emoji_patterns] },
     { docExts := d2, spanExts := s2, tokenExts := t2 })

/-- State-passing form of `Emoji.__call__`: the method reads but never
assigns any field of `self`, so the component state is returned unchanged
alongside the annotated document. -/
def Emoji.callS (e : EmojiComponent) (matcher : Doc → List SpanIdx) (doc : Doc) :
    EmojiComponent × Doc :=
  (e, Emoji.call e matcher doc)

/-- State-passing form of the three getters: none of `has_emoji`,
`iter_emoji`, `get_emoji_desc` assigns any field of `self`. -/
def Emoji.gettersS (e : EmojiComponent) (tbl : List (PyStr × PyStr)) (ts : List Token)
    (t : Token) :
    EmojiComponent × Bool × List (PyStr × Nat × Option PyStr) × Option PyStr :=
  (e, Emoji.has_emoji ts, Emoji.iter_emoji e.lookup tbl ts,
   Emoji.get_emoji_desc e.lookup tbl t)

/-- Claim-side predicate: position `i` falls inside some span of `spans`. -/
def inAnySpan (spans : List SpanIdx) (i : Nat) : Prop :=
  ∃ sp ∈ spans, sp.start ≤ i ∧ i < sp.stop

instance (spans : List SpanIdx) (i : Nat) : Decidable (inAnySpan spans i) := by
  unfold inAnySpan
  infer_instance

/-- Claim-side step for the overlap-skipping rule: keep the candidate and
move `lastEnd` unless it starts before the end of the last kept span. -/
def claimKeepStep (acc : List SpanIdx × Nat) (sp : SpanIdx) : List SpanIdx × Nat :=
  if sp.start < acc.2 then acc else (acc.1 ++ [sp], sp.stop)

/-- Claim-side rendering of the skip rule of C2, written as a left fold over
the candidates with the kept list and the last kept end as accumulator. -/
def claimKeep (spans : List SpanIdx) : List SpanIdx :=
  (spans.foldl claimKeepStep ([], 0)).1

/-- Claim-side description transform of C9: every underscore replaced by a
space, every colon removed. -/
def claimDescTransform (d : PyStr) : PyStr :=
  (d.map (fun c => if c = '_' then ' ' else c)).filter (fun c => c ≠ ':')

/-- Claim-side triple list of C3: one `(text, index, description)` triple
per flagged token, in token order, indices counted from `i0`. -/
def emojiTriplesFrom (lookup tbl : List (PyStr × PyStr)) (i0 : Nat) :
    List Token → List (PyStr × Nat × Option PyStr)
  | [] => []
  | t :: ts =>
    (if t.isEmojiFlag then [(t.text, i0, Emoji.get_emoji_desc lookup tbl t)] else []) ++
      emojiTriplesFrom lookup tbl (i0 + 1) ts

/-! Concrete fixtures used to instantiate the theorems below. -/

/-- A concrete component with merging disabled. -/
def eW1 : EmojiComponent := ⟨['h'], ['i'], ['d'], ['e'], false, [], [], []⟩

/-- A concrete component with merging enabled. -/
def eW2 : EmojiComponent := ⟨['h'], ['i'], ['d'], ['e'], true, [], [], []⟩

/-- A concrete matcher returning one two-token span. -/
def matcherW : Doc → List SpanIdx := fun _ => [⟨1, 3⟩]

/-- A concrete three-token document with all flags clear. -/
def docW : Doc := ⟨0, [⟨['a'], false⟩, ⟨['b'], false⟩, ⟨['c'], false⟩]⟩

/-- A concrete token list whose third token is flagged. -/
def tsW : List Token := [⟨['a'], false⟩, ⟨['b'], false⟩, ⟨['c'], true⟩]

/-- A concrete tokenizer: one single-token pattern per string. -/
def tokW : PyStr → List PyStr := fun s => [s]

/-- A concrete one-entry third-party emoji table whose key has a space. -/
def uniW : List (PyStr × PyStr) := [(['a', ' ', 'b'], ['x'])]

/-- An empty host extension registry. -/
def hostW : HostRegistry := ⟨[], [], []⟩

/-- A host registry on which the first attribute name is already taken. -/
def hostDupW : HostRegistry := ⟨[['h']], [], []⟩

/-- The concrete attribute-name tuple for the fixtures. -/
def attrsW : PyStr × PyStr × PyStr × PyStr := (['h'], ['i'], ['d'], ['e'])

/-- The component `Emoji.init` builds from the fixtures above. -/
def e7W : EmojiComponent := ⟨['h'], ['i'], ['d'], ['e'], true, [], [['P']], [[[['a', 'b']]]]⟩

/-- The host registry `Emoji.init` leaves behind for the fixtures above. -/
def hr7W : HostRegistry := ⟨[['h'], ['e']], [['h'], ['e']], [['i'], ['d']]⟩

/-! ## Lemmas about the flag-setting loop -/

lemma setFlagAt_getElem? (ts : List Token) (j i : Nat) :
    (setFlagAt ts j)[i]? = if i = j then ts[i]?.map setTrue else ts[i]? := by
  induction ts generalizing j i with
  | nil => simp [setFlagAt]
  | cons t ts ih =>
    cases j with
    | zero =>
      cases i with
      | zero => simp [setFlagAt, setTrue]
      | succ n => simp [setFlagAt]
    | succ m =>
      cases i with
      | zero => simp [setFlagAt]
      | succ n => simp [setFlagAt, ih m n]

lemma foldl_setFlagAt_range' (n : Nat) :
    ∀ (s : Nat) (ts : List Token) (i : Nat),
      ((List.range' s n).foldl setFlagAt ts)[i]? =
        if s ≤ i ∧ i < s + n then ts[i]?.map setTrue else ts[i]? := by
  induction n with
  | zero =>
    intro s ts i
    rw [List.range'_zero, if_neg (by omega)]
    rfl
  | succ n ih =>
    intro s ts i
    rw [List.range'_succ, List.foldl_cons, ih (s + 1) (setFlagAt ts s) i,
      setFlagAt_getElem?]
    by_cases h1 : i = s
    · subst h1
      rw [if_neg (by omega), if_pos rfl, if_pos (by omega)]
    · by_cases h2 : s + 1 ≤ i ∧ i < s + 1 + n
      · rw [if_pos h2, if_neg h1, if_pos (by omega)]
      · rw [if_neg h2, if_neg h1, if_neg (by omega)]

lemma setSpanFlags_getElem? (ts : List Token) (sp : SpanIdx) (i : Nat) :
    (setSpanFlags ts sp)[i]? =
      if sp.start ≤ i ∧ i < sp.stop then ts[i]?.map setTrue else ts[i]? := by
  unfold setSpanFlags
  rw [foldl_setFlagAt_range']
  by_cases h : sp.start ≤ i ∧ i < sp.stop
  · obtain ⟨h1, h2⟩ := h
    rw [if_pos (by omega), if_pos (by omega)]
  · rw [if_neg (by omega), if_neg h]

lemma setFlags_getElem? (spans : List SpanIdx) :
    ∀ (ts : List Token) (i : Nat),
      (setFlags ts spans)[i]? =
        if inAnySpan spans i then ts[i]?.map setTrue else ts[i]? := by
  induction spans with
  | nil =>
    intro ts i
    rw [if_neg (by simp [inAnySpan])]
    rfl
  | cons sp rest ih =>
    intro ts i
    show (setFlags (setSpanFlags ts sp) rest)[i]? = _
    rw [ih, setSpanFlags_getElem?]
    have hiff : inAnySpan (sp :: rest) i ↔
        (sp.start ≤ i ∧ i < sp.stop) ∨ inAnySpan rest i := by
      simp [inAnySpan, List.exists_mem_cons_iff]
    by_cases h1 : inAnySpan rest i
    · by_cases h2 : sp.start ≤ i ∧ i < sp.stop
      · rw [if_pos h1, if_pos h2, if_pos (hiff.mpr (Or.inr h1))]
        cases ts[i]? <;> simp [setTrue]
      · rw [if_pos h1, if_neg h2, if_pos (hiff.mpr (Or.inr h1))]
    · by_cases h2 : sp.start ≤ i ∧ i < sp.stop
      · rw [if_neg h1, if_pos h2, if_pos (hiff.mpr (Or.inl h2))]
      · rw [if_neg h1, if_neg h2, if_neg (fun hc => by
          rcases hiff.mp hc with h | h
          · exact h2 h
          · exact h1 h)]

/-- Method `Emoji.__call__` with merging disabled only sets flags. -/
lemma call_of_not_merge (e : EmojiComponent) (matcher : Doc → List SpanIdx) (doc : Doc)
    (hm : e.merge_spans = false) :
    Emoji.call e matcher doc = { doc with tokens := setFlags doc.tokens (matcher doc) } := by
  simp [Emoji.call, hm]

/-! ## C1 -/

/-- C1: in the per-document entry point, a token's `is_emoji` flag ends up
`true` exactly when the token's position lies inside a span returned by the
matcher for that document, the flag defaulting to `false` elsewhere. Stated
for the flag-assignment stage of `__call__` (token positions at match time)
and for the full entry point when no merge renumbers the tokens. -/
theorem is_emoji_iff_in_matched_span (e : EmojiComponent)
    (matcher : Doc → List SpanIdx) (doc : Doc)
    (hinit : ∀ t ∈ doc.tokens, t.isEmojiFlag = false) :
    (∀ i t, (setFlags doc.tokens (matcher doc))[i]? = some t →
        (t.isEmojiFlag = true ↔ inAnySpan (matcher doc) i))
    ∧ (e.merge_spans = false →
        ∀ i t, (Emoji.call e matcher doc).tokens[i]? = some t →
          (t.isEmojiFlag = true ↔ inAnySpan (matcher doc) i)) := by
  have main : ∀ i t, (setFlags doc.tokens (matcher doc))[i]? = some t →
      (t.isEmojiFlag = true ↔ inAnySpan (matcher doc) i) := by
    intro i t ht
    rw [setFlags_getElem?] at ht
    by_cases h : inAnySpan (matcher doc) i
    · rw [if_pos h] at ht
      cases hg : doc.tokens[i]? with
      | none => rw [hg] at ht; simp at ht
      | some t0 =>
        rw [hg] at ht
        have hts : setTrue t0 = t := by simpa using ht
        subst hts
        simp [setTrue, h]
    · rw [if_neg h] at ht
      have hmem : t ∈ doc.tokens := List.getElem?_mem ht
      simp [hinit t hmem, h]
  refine ⟨main, fun hm i t ht => main i t ?_⟩
  rw [call_of_not_merge e matcher doc hm] at ht
  exact ht

/-- Witness for C1 at the concrete fixtures. -/
theorem is_emoji_iff_in_matched_span_witness :
    (∀ t ∈ docW.tokens, t.isEmojiFlag = false) ∧
      ((⟨['b'], true⟩ : Token).isEmojiFlag = true ↔ inAnySpan (matcherW docW) 1) :=
  ⟨by decide,
    (is_emoji_iff_in_matched_span eW1 matcherW docW (by decide)).1 1 ⟨['b'], true⟩
      (by decide)⟩

/-! ## C2 -/

lemma foldl_claimKeepStep (l : List SpanIdx) :
    ∀ (ks : List SpanIdx) (lastEnd : Nat),
      (l.foldl claimKeepStep (ks, lastEnd)).1 = ks ++ filterSpansFrom lastEnd l := by
  induction l with
  | nil => intro ks le; simp [filterSpansFrom]
  | cons sp rest ih =>
    intro ks le
    rw [List.foldl_cons]
    by_cases h : sp.start < le
    · rw [show claimKeepStep (ks, le) sp = (ks, le) from by simp [claimKeepStep, h],
        show filterSpansFrom le (sp :: rest) = filterSpansFrom le rest from by
          simp [filterSpansFrom, h]]
      exact ih ks le
    · rw [show claimKeepStep (ks, le) sp = (ks ++ [sp], sp.stop) from by
          simp [claimKeepStep, h],
        show filterSpansFrom le (sp :: rest) = sp :: filterSpansFrom sp.stop rest from by
          simp [filterSpansFrom, h],
        ih (ks ++ [sp]) sp.stop, List.append_assoc]
      rfl


/-- C2 counterexample: on the candidate list `[[0,1)]` the skip rule keeps
the single-token span, but that span is not passed to `retokenizer.merge`,
so the merged set is not the kept set. -/
theorem kept_span_not_always_merged :
    claimKeep [⟨0, 1⟩] = [⟨0, 1⟩] ∧ spansToMerge [⟨0, 1⟩] ≠ claimKeep [⟨0, 1⟩] := by
  decide

/-- C2 (amended): the kept spans are obtained from the matcher's candidates
by exactly the skip rule (skip a candidate iff it starts before the end of
the last kept span), and the spans passed to the retokenization API are the
kept spans of more than one token. -/
theorem kept_spans_by_skip_rule (spans : List SpanIdx) :
    filter_spans spans = claimKeep spans ∧
      spansToMerge spans =
        (claimKeep spans).filter (fun sp => 1 < sp.stop - sp.start) := by
  have h : claimKeep spans = filter_spans spans := by
    unfold claimKeep filter_spans
    simpa using foldl_claimKeepStep spans [] 0
  exact ⟨h.symm, by rw [h]; rfl⟩

/-! ## C3 -/

lemma enumFrom_filter_map (lookup tbl : List (PyStr × PyStr)) :
    ∀ (ts : List Token) (n : Nat),
      ((List.enumFrom n ts).filter (fun p => p.2.isEmojiFlag)).map
          (fun p => (p.2.text, p.1, Emoji.get_emoji_desc lookup tbl p.2)) =
        emojiTriplesFrom lookup tbl n ts := by
  intro ts
  induction ts with
  | nil => intro n; simp [emojiTriplesFrom]
  | cons t ts ih =>
    intro n
    by_cases hf : t.isEmojiFlag = true
    · simp [List.filter_cons, hf, emojiTriplesFrom, ih]
    · simp [List.filter_cons, hf, emojiTriplesFrom, ih]

/-- C3: the document-level `emoji` attribute is exactly the list of
`(text, index, description)` triples of the flagged tokens, in token order,
with the token's text, position, and emoji description. -/
theorem emoji_attr_is_flagged_triples (lookup tbl : List (PyStr × PyStr))
    (ts : List Token) :
    Emoji.iter_emoji lookup tbl ts = emojiTriplesFrom lookup tbl 0 ts := by
  unfold Emoji.iter_emoji
  rw [show ts.enum = List.enumFrom 0 ts from rfl]
  exact enumFrom_filter_map lookup tbl ts 0

/-! ## C4 -/

lemma setFlagAt_map_text (ts : List Token) (j : Nat) :
    (setFlagAt ts j).map Token.text = ts.map Token.text := by
  induction ts generalizing j with
  | nil => rfl
  | cons t ts ih =>
    cases j with
    | zero => simp [setFlagAt]
    | succ m => simp [setFlagAt, ih m]

lemma foldl_setFlagAt_map_text (l : List Nat) :
    ∀ ts : List Token, ((l.foldl setFlagAt ts).map Token.text) = ts.map Token.text := by
  induction l with
  | nil => intro ts; rfl
  | cons j rest ih =>
    intro ts
    rw [List.foldl_cons, ih (setFlagAt ts j), setFlagAt_map_text]

lemma setFlags_map_text (spans : List SpanIdx) :
    ∀ ts : List Token, (setFlags ts spans).map Token.text = ts.map Token.text := by
  induction spans with
  | nil => intro ts; rfl
  | cons sp rest ih =>
    intro ts
    show (setFlags (setSpanFlags ts sp) rest).map Token.text = ts.map Token.text
    rw [ih (setSpanFlags ts sp)]
    exact foldl_setFlagAt_map_text _ ts

lemma setFlags_length (spans : List SpanIdx) (ts : List Token) :
    (setFlags ts spans).length = ts.length := by
  have h := congrArg List.length (setFlags_map_text spans ts)
  simpa using h

/-- C4: merging is optional. With `merge_spans` disabled the entry point
performs no retokenization: the result is the input document with only the
per-token flags set, so token count and token texts are unchanged. With
`merge_spans` enabled the retokenizer is handed exactly the kept spans of
more than one token. -/
theorem merge_spans_optional (e : EmojiComponent) (matcher : Doc → List SpanIdx)
    (doc : Doc) :
    (e.merge_spans = false →
        Emoji.call e matcher doc =
            { doc with tokens := setFlags doc.tokens (matcher doc) } ∧
          (Emoji.call e matcher doc).tokens.length = doc.tokens.length ∧
          (Emoji.call e matcher doc).tokens.map Token.text =
            doc.tokens.map Token.text)
    ∧ (e.merge_spans = true →
        (Emoji.call e matcher doc).tokens =
            retokenize (setFlags doc.tokens (matcher doc)) (spansToMerge (matcher doc)) ∧
          ∀ sp ∈ spansToMerge (matcher doc), 1 < sp.stop - sp.start) := by
  constructor
  · intro hm
    refine ⟨call_of_not_merge e matcher doc hm, ?_, ?_⟩
    · rw [call_of_not_merge e matcher doc hm]
      exact setFlags_length (matcher doc) doc.tokens
    · rw [call_of_not_merge e matcher doc hm]
      exact setFlags_map_text (matcher doc) doc.tokens
  · intro hm
    refine ⟨by simp [Emoji.call, hm], ?_⟩
    intro sp hsp
    unfold spansToMerge at hsp
    simpa using (List.mem_filter.mp hsp).2

/-- Witness for C4 at the concrete fixtures, with merging disabled and
enabled respectively. -/
theorem merge_spans_optional_witness :
    (Emoji.call eW1 matcherW docW =
        { docW with tokens := setFlags docW.tokens (matcherW docW) } ∧
      (Emoji.call eW1 matcherW docW).tokens.length = docW.tokens.length ∧
      (Emoji.call eW1 matcherW docW).tokens.map Token.text =
        docW.tokens.map Token.text) ∧
    ((Emoji.call eW2 matcherW docW).tokens =
        retokenize (setFlags docW.tokens (matcherW docW)) (spansToMerge (matcherW docW)) ∧
      ∀ sp ∈ spansToMerge (matcherW docW), 1 < sp.stop - sp.start) :=
  ⟨(merge_spans_optional eW1 matcherW docW).1 rfl,
   (merge_spans_optional eW2 matcherW docW).2 rfl⟩

/-! ## C5 -/

/-- C5: the per-document entry point returns the document object it was
given — annotations replace its token data in place, the object identity is
never exchanged for a new document. -/
theorem call_returns_same_doc (e : EmojiComponent) (matcher : Doc → List SpanIdx)
    (doc : Doc) :
    (Emoji.call e matcher doc).docId = doc.docId := by
  cases hm : e.merge_spans <;> simp [Emoji.call, hm]

/-! ## C6 -/

/-- C6: neither the per-document entry point nor any getter mutates the
matcher's pattern table or the custom-description lookup table: the
component state they return is unchanged in those fields. -/
theorem tables_never_mutated (e : EmojiComponent) (matcher : Doc → List SpanIdx)
    (doc : Doc) (tbl : List (PyStr × PyStr)) (ts : List Token) (t : Token) :
    ((Emoji.callS e matcher doc).1.matcherKeys = e.matcherKeys ∧
      (Emoji.callS e matcher doc).1.matcherPatterns = e.matcherPatterns ∧
      (Emoji.callS e matcher doc).1.lookup = e.lookup) ∧
    ((Emoji.gettersS e tbl ts t).1.matcherKeys = e.matcherKeys ∧
      (Emoji.gettersS e tbl ts t).1.matcherPatterns = e.matcherPatterns ∧
      (Emoji.gettersS e tbl ts t).1.lookup = e.lookup) :=
  ⟨⟨rfl, rfl, rfl⟩, ⟨rfl, rfl, rfl⟩⟩

/-! ## C7 -/

lemma foldl_dictInsert (l : List (PyStr × PyStr)) :
    ∀ acc : List (PyStr × PyStr),
      ((acc.map Prod.fst) ++ l.map (fun p => pyReplace p.1 [' '] [])).Nodup →
        l.foldl (fun d p => dictInsert d (pyReplace p.1 [' '] []) p.2) acc =
          acc ++ l.map (fun p => (pyReplace p.1 [' '] [], p.2)) := by
  induction l with
  | nil => intro acc _; simp
  | cons kv rest ih =>
    intro acc hnd
    rw [List.foldl_cons]
    have hk : pyReplace kv.1 [' '] [] ∉ acc.map Prod.fst := by
      have hdisj := List.disjoint_of_nodup_append hnd
      intro hmem
      exact hdisj hmem (by simp)
    have hc : dictContains acc (pyReplace kv.1 [' '] []) = false := by
      cases hcv : dictContains acc (pyReplace kv.1 [' '] []) with
      | false => rfl
      | true =>
        exfalso
        obtain ⟨p, hp, hpk⟩ := List.any_eq_true.mp hcv
        have hpk' : p.1 = pyReplace kv.1 [' '] [] := of_decide_eq_true hpk
        exact hk (hpk' ▸ List.mem_map_of_mem Prod.fst hp)
    have hins : dictInsert acc (pyReplace kv.1 [' '] []) kv.2 =
        acc ++ [(pyReplace kv.1 [' '] [], kv.2)] := by
      simp [dictInsert, hc]
    rw [hins]
    have hnd' : (((acc ++ [(pyReplace kv.1 [' '] [], kv.2)]).map Prod.fst) ++
        rest.map (fun p => pyReplace p.1 [' '] [])).Nodup := by
      have harr : ((acc ++ [(pyReplace kv.1 [' '] [], kv.2)]).map Prod.fst) ++
          rest.map (fun p => pyReplace p.1 [' '] []) =
          (acc.map Prod.fst) ++ (kv :: rest).map (fun p => pyReplace p.1 [' '] []) := by
        simp
      rw [harr]
      exact hnd
    rw [ih (acc ++ [(pyReplace kv.1 [' '] [], kv.2)]) hnd', List.append_assoc]
    rfl

/-- When the space-stripped keys of the third-party table are pairwise
distinct, the `EMOJI` dict comprehension is one entry per table key, the key
space-stripped. -/
lemma EMOJI_eq_of_nodup (u : List (PyStr × PyStr))
    (h : (u.map (fun p => pyReplace p.1 [' '] [])).Nodup) :
    EMOJI u = u.map (fun p => (pyReplace p.1 [' '] [], p.2)) := by
  unfold EMOJI
  simpa using foldl_dictInsert u [] (by simpa using h)

/-- A successful `Emoji.init` determines every component field. -/
lemma init_ok_parts (tok : PyStr → List PyStr) (u : List (PyStr × PyStr))
    (host : HostRegistry) (ms : Bool) (lk : Option (List (PyStr × PyStr)))
    (pid : PyStr) (attrs : PyStr × PyStr × PyStr × PyStr) (force : Bool)
    (e : EmojiComponent) (hr : HostRegistry)
    (h : Emoji.init tok u host ms lk pid attrs force = Except.ok (e, hr)) :
    e.matcherKeys = [pid] ∧ e.matcherPatterns = [(EMOJI u).map (fun p => tok p.1)] ∧
      e.lookup = lk.getD [] ∧ e.merge_spans = ms ∧ e.hasEmojiAttr = attrs.1 ∧
      e.isEmojiAttr = attrs.2.1 ∧ e.emojiDescAttr = attrs.2.2.1 ∧
      e.emojiAttr = attrs.2.2.2 := by
  obtain ⟨a1, a2, a3, a4⟩ := attrs
  unfold Emoji.init at h
  simp only [bind, Except.bind] at h
  repeat' split at h
  all_goals cases h
  all_goals exact ⟨rfl, rfl, rfl, rfl, rfl, rfl, rfl, rfl⟩

/-- C7: construction registers, under the single configured pattern
identifier, one matcher pattern per key of the third-party emoji-name table,
the key having all space characters removed before pattern creation
(assuming the space-stripped keys are pairwise distinct, as they are in the
shipped data). -/
theorem one_pattern_per_emoji_key (tok : PyStr → List PyStr)
    (u : List (PyStr × PyStr)) (host : HostRegistry) (ms : Bool)
    (lk : Option (List (PyStr × PyStr))) (pid : PyStr)
    (attrs : PyStr × PyStr × PyStr × PyStr) (force : Bool)
    (e : EmojiComponent) (hr : HostRegistry)
    (hnodup : (u.map (fun p => pyReplace p.1 [' '] [])).Nodup)
    (h : Emoji.init tok u host ms lk pid attrs force = Except.ok (e, hr)) :
    e.matcherKeys = [pid] ∧
      e.matcherPatterns = [u.map (fun p => tok (pyReplace p.1 [' '] []))] := by
  obtain ⟨hk, hp, -⟩ := init_ok_parts tok u host ms lk pid attrs force e hr h
  refine ⟨hk, ?_⟩
  rw [hp, EMOJI_eq_of_nodup u hnodup, List.map_map]
  rfl

/-- Witness for C7 at the concrete fixtures. -/
theorem one_pattern_per_emoji_key_witness :
    (uniW.map (fun p => pyReplace p.1 [' '] [])).Nodup ∧
      e7W.matcherKeys = [['P']] ∧
      e7W.matcherPatterns = [uniW.map (fun p => tokW (pyReplace p.1 [' '] []))] :=
  ⟨by decide,
    one_pattern_per_emoji_key tokW uniW hostW true none ['P'] attrsW true e7W hr7W
      (by decide) rfl⟩

/-! ## C8 -/

lemma setExtension_true (r : List PyStr) (n : PyStr) :
    setExtension r n true = Except.ok (if n ∈ r then r else r ++ [n]) := by
  unfold setExtension
  split
  · rename_i hmem
    simp [hmem]
  · rename_i hmem
    simp [hmem]

lemma setExtension_error (r : List PyStr) (n : PyStr) (f : Bool) (err : PyStr)
    (h : setExtension r n f = Except.error err) : f = false ∧ err = n := by
  unfold setExtension at h
  split at h
  · split at h
    · cases h
    · cases h
      cases f with
      | true => simp at *
      | false => exact ⟨rfl, rfl⟩
  · cases h

/-- C8: the component defines no error condition of its own. With
`force_extension` set the constructor always succeeds, and any construction
failure is a duplicate-attribute rejection raised by the host framework's
`set_extension` validation (naming one of the four configured attribute
names) with forcing disabled. The entry point and the getters are total
functions and cannot fail. -/
theorem no_component_error_conditions (tok : PyStr → List PyStr)
    (u : List (PyStr × PyStr)) (host : HostRegistry) (ms : Bool)
    (lk : Option (List (PyStr × PyStr))) (pid : PyStr)
    (attrs : PyStr × PyStr × PyStr × PyStr) (force : Bool) :
    (force = true → (Emoji.init tok u host ms lk pid attrs force).isOk = true)
    ∧ (∀ err, Emoji.init tok u host ms lk pid attrs force = Except.error err →
        force = false ∧
          (err = attrs.1 ∨ err = attrs.2.1 ∨ err = attrs.2.2.1 ∨ err = attrs.2.2.2)) := by
  obtain ⟨a1, a2, a3, a4⟩ := attrs
  constructor
  · intro hf
    subst hf
    unfold Emoji.init
    simp only [setExtension_true, bind, Except.bind, Except.isOk]
    rfl
  · intro err herr
    unfold Emoji.init at herr
    simp only [bind, Except.bind] at herr
    repeat' split at herr
    all_goals cases herr
    all_goals rename_i heq
    all_goals obtain ⟨hf, hn⟩ := setExtension_error _ _ _ _ heq
    all_goals exact ⟨hf, by tauto⟩

/-- Witness for C8: the constructor succeeds on a fresh registry with
forcing on, and on a registry already holding the first attribute name with
forcing off it fails naming exactly that attribute. -/
theorem no_component_error_conditions_witness :
    (Emoji.init tokW uniW hostW true none ['P'] attrsW true).isOk = true ∧
      (false = false ∧
        (['h'] = attrsW.1 ∨ ['h'] = attrsW.2.1 ∨ ['h'] = attrsW.2.2.1 ∨
          ['h'] = attrsW.2.2.2)) :=
  ⟨(no_component_error_conditions tokW uniW hostW true none ['P'] attrsW true).1 rfl,
   (no_component_error_conditions tokW uniW hostDupW true none ['P'] attrsW false).2
     ['h'] rfl⟩

/-! ## C9 -/

lemma pyReplaceAux_single (o : Char) (r : PyStr) :
    ∀ (fuel : Nat) (s : PyStr), s.length ≤ fuel →
      pyReplaceAux fuel s [o] r =
        s.foldr (fun c acc => (if c = o then r else [c]) ++ acc) [] := by
  intro fuel
  induction fuel with
  | zero =>
    intro s hs
    cases s with
    | nil => rfl
    | cons c rest => simp at hs
  | succ fuel ih =>
    intro s hs
    cases s with
    | nil => rfl
    | cons c rest =>
      show (if [o] ≠ [] ∧ [o].isPrefixOf (c :: rest) then
          r ++ pyReplaceAux fuel ((c :: rest).drop [o].length) [o] r
        else c :: pyReplaceAux fuel rest [o] r) = _
      have hrest : rest.length ≤ fuel := by
        simp only [List.length_cons] at hs
        omega
      by_cases hco : c = o
      · rw [if_pos ⟨by simp, by simp [List.isPrefixOf, hco]⟩]
        simp [hco, ih rest hrest]
      · rw [if_neg (fun hpre => hco (by
          have hp := hpre.2
          simp [List.isPrefixOf] at hp
          exact hp.symm))]
        simp [hco, ih rest hrest]

/-- Python `replace("_", " ")` substitutes character-wise. -/
lemma pyReplace_underscore (s : PyStr) :
    pyReplace s ['_'] [' '] = s.map (fun c => if c = '_' then ' ' else c) := by
  rw [pyReplace, pyReplaceAux_single '_' [' '] s.length s le_rfl]
  induction s with
  | nil => rfl
  | cons c rest ih =>
    by_cases h : c = '_' <;> simp [h, ih]

/-- Python `replace(":", "")` deletes the colons. -/
lemma pyReplace_colon (s : PyStr) :
    pyReplace s [':'] [] = s.filter (fun c => c ≠ ':') := by
  rw [pyReplace, pyReplaceAux_single ':' [] s.length s le_rfl]
  induction s with
  | nil => rfl
  | cons c rest ih =>
    by_cases h : c = ':' <;> simp [h, ih, List.filter_cons]

/-- C9: the description getter returns the custom lookup entry for the
token's text when present (the custom table takes precedence); otherwise
the built-in table's value with every underscore replaced by a space and
every colon removed; otherwise `None`. -/
theorem get_emoji_desc_cases (lookup tbl : List (PyStr × PyStr)) (t : Token) :
    Emoji.get_emoji_desc lookup tbl t =
      (dictFind lookup t.text).or
        ((dictFind tbl t.text).map claimDescTransform) := by
  unfold Emoji.get_emoji_desc
  cases dictFind lookup t.text with
  | some v => rfl
  | none =>
    cases dictFind tbl t.text with
    | none => rfl
    | some d =>
      show some (pyReplace (pyReplace d ['_'] [' ']) [':'] []) = _
      rw [pyReplace_underscore, pyReplace_colon]
      rfl

/-! ## C10 -/

lemma triplesFrom_mem (lookup tbl : List (PyStr × PyStr)) :
    ∀ (ts : List Token) (n i : Nat) (t : Token),
      ts[i]? = some t → t.isEmojiFlag = true →
        (t.text, n + i, Emoji.get_emoji_desc lookup tbl t) ∈
          emojiTriplesFrom lookup tbl n ts := by
  intro ts
  induction ts with
  | nil => intro n i t h _; simp at h
  | cons t0 rest ih =>
    intro n i t h hf
    cases i with
    | zero =>
      have h0 : t0 = t := by simpa using h
      subst h0
      simp [emojiTriplesFrom, hf]
    | succ j =>
      rw [List.getElem?_cons_succ] at h
      have hmem := ih (n + 1) j t h hf
      simp only [emojiTriplesFrom]
      refine List.mem_append_right _ ?_
      rw [show n + (j + 1) = (n + 1) + j from by omega]
      exact hmem

/-- C10: the index in each triple is the token's position within the
container the getter was invoked on: within a span `doc[a:b]` a flagged
token at document position `p` is reported at index `p - a`, while the
document-level list reports it at index `p`. -/
theorem emoji_index_relative_to_container (lookup tbl : List (PyStr × PyStr))
    (ts : List Token) (a b p : Nat) (t : Token)
    (hap : a ≤ p) (hpb : p < b) (hbl : b ≤ ts.length)
    (hget : ts[p]? = some t) (hflag : t.isEmojiFlag = true) :
    (t.text, p - a, Emoji.get_emoji_desc lookup tbl t) ∈
        Emoji.iter_emoji lookup tbl (spanTokens ts a b)
      ∧ (t.text, p, Emoji.get_emoji_desc lookup tbl t) ∈
        Emoji.iter_emoji lookup tbl ts := by
  have hiter : ∀ us, Emoji.iter_emoji lookup tbl us = emojiTriplesFrom lookup tbl 0 us := by
    intro us
    unfold Emoji.iter_emoji
    rw [show us.enum = List.enumFrom 0 us from rfl]
    exact enumFrom_filter_map lookup tbl us 0
  constructor
  · rw [hiter]
    have hspan : (spanTokens ts a b)[p - a]? = some t := by
      unfold spanTokens
      rw [List.getElem?_take, if_pos (by omega), List.getElem?_drop,
        show a + (p - a) = p from by omega]
      exact hget
    simpa using triplesFrom_mem lookup tbl (spanTokens ts a b) 0 (p - a) t hspan hflag
  · rw [hiter]
    simpa using triplesFrom_mem lookup tbl ts 0 p t hget hflag

/-- Witness for C10: in the fixture the flagged token sits at document
position 2, at index 1 of the span `doc[1:3]` and at index 2 of the
document-level list. -/
theorem emoji_index_relative_to_container_witness :
    tsW[2]? = some ⟨['c'], true⟩ ∧
      ((['c'] : PyStr), 2 - 1, Emoji.get_emoji_desc [] [] ⟨['c'], true⟩) ∈
          Emoji.iter_emoji [] [] (spanTokens tsW 1 3) ∧
        ((['c'] : PyStr), 2, Emoji.get_emoji_desc [] [] ⟨['c'], true⟩) ∈
          Emoji.iter_emoji [] [] tsW :=
  ⟨by decide,
    emoji_index_relative_to_container [] [] tsW 1 3 2 ⟨['c'], true⟩ (by decide)
      (by decide) (by decide) (by decide) rfl⟩

end Spacymoji
